import Mathlib

/-!
Shallow embedding of the FusionPDF value-extraction and comparison engine.

Sources embedded here:
* `FusionPDF-web.py` — `parse_number_string`, `find_number_candidates_near_label`,
  `select_best_candidate`, `extract_best_value_for_label`, `compare_values`,
  the Bulk Comparison page loop;
* `utils/fusion_core.py` — `extract_value_from_pdf`, `compare_pdf_values`;
* `pages/2_Bulk_Comparison.py` — the bulk comparison loop over basename-paired files.

Modelling conventions: Python strings are `List Char`; Python floats are exact
rationals `ℚ` (decimal arithmetic, no binary rounding); Python `None` is
`Option.none`.  File access and PDF text acquisition are external collaborators:
a document is modelled by whether its path check passes (`pathOk`) and by the
text the PDF library produced (`Option (List Char)`, `none` meaning the read or
text extraction raised, which the source catches).
-/

/-- Characters of a string literal. -/
def lc (s : String) : List Char := s.data

/-- Python `\d` / `str.isdigit` restricted to ASCII as used by the source regexes. -/
def isDigitC (c : Char) : Bool := 48 ≤ c.toNat && c.toNat ≤ 57

/-- Numeric value of a decimal digit character. -/
def digitVal (c : Char) : ℕ := c.toNat - 48

/-- Decimal digit character of `n < 10`. -/
def digitChar (n : ℕ) : Char := Char.ofNat (48 + n)

/-- Python `\s` / `str.strip` whitespace (ASCII part, as relevant to the sources). -/
def isPySpace (c : Char) : Bool :=
  c = ' ' || c = '\t' || c = '\n' || c = '\x0d' || c = '\x0b' || c = '\x0c'

/-- Python `str.strip()`. -/
def pyStrip (s : List Char) : List Char :=
  ((s.dropWhile isPySpace).reverse.dropWhile isPySpace).reverse

/-- Big-endian decimal digit accumulation: `parseNatAux a "123" = a*1000 + 123`. -/
def parseNatAux (a : ℕ) (l : List Char) : ℕ :=
  l.foldl (fun a c => 10 * a + digitVal c) a

/-- Value of a big-endian digit string. -/
def parseNat (l : List Char) : ℕ := parseNatAux 0 l

/-- Fuel-driven decimal printer (structural recursion so the kernel can evaluate it). -/
def natPrintAux : ℕ → ℕ → List Char
  | 0, _ => []
  | fuel + 1, n =>
    if n < 10 then [digitChar n]
    else natPrintAux fuel (n / 10) ++ [digitChar (n % 10)]

/-- Decimal digits of `n`, most significant first. -/
def natPrint (n : ℕ) : List Char := natPrintAux (n + 1) n

/-- The last `e` decimal digits of `n`, most significant first, leading zeros kept. -/
def natPrintFix : ℕ → ℕ → List Char
  | 0, _ => []
  | e + 1, n => natPrintFix e (n / 10) ++ [digitChar (n % 10)]

/-- Split a char list at its only `'.'`; `none` when two or more dots occur
(mirrors Python `float` rejecting such strings). -/
def splitDot (s : List Char) : Option (List Char × List Char) :=
  let pre := s.takeWhile (fun c => c != '.')
  match s.drop pre.length with
  | [] => some (pre, [])
  | _ :: rest => if rest.contains '.' then none else some (pre, rest)

/-- Python `float(s)` for strings over digits, `'.'` and `'-'` (the only strings the
normalizer ever passes to it): optional leading minus, at most one dot, at least one
digit, everything else a digit.  Returns the exact decimal value. -/
def pyFloat? (s : List Char) : Option ℚ :=
  let p : Bool × List Char :=
    match s with
    | c :: r => if c = '-' then (true, r) else (false, s)
    | [] => (false, s)
  match splitDot p.2 with
  | none => none
  | some (ip, fp) =>
    if (ip.all isDigitC && fp.all isDigitC) && (!ip.isEmpty || !fp.isEmpty) then
      let v : ℚ := mkRat (parseNat ip * 10 ^ fp.length + parseNat fp : ℕ) (10 ^ fp.length)
      some (if p.1 then -v else v)
    else none

/-- Character class of the first cleaning pass `re.sub(r'[^\d\.,\-]', '', s)`. -/
def keep1 (c : Char) : Bool := isDigitC c || c = '.' || c = ',' || c = '-'

/-- Character class of the final cleaning pass `re.sub(r'[^\d\.\-]', '', s)`. -/
def keep2 (c : Char) : Bool := isDigitC c || c = '.' || c = '-'

/-- Python `s.replace(',', '.')` on one character. -/
def swapCommaDot (c : Char) : Char := if c = ',' then '.' else c

/-- Does `s` end in `sep` followed by exactly three digits
(`re.search(r'\.\d{3}$', s)` and its comma twin)? -/
def endsSep3 (sep : Char) (s : List Char) : Bool :=
  match s.reverse with
  | a :: b :: d :: e :: _ => isDigitC a && isDigitC b && isDigitC d && e = sep
  | _ => false

/-- `s.rfind(',') > s.rfind('.')` for strings containing both: the first separator
found scanning from the right is the comma. -/
def commaIsDecimal (s : List Char) : Bool :=
  s.reverse.findIdx (fun c => c == ',') < s.reverse.findIdx (fun c => c == '.')

/-- Both-separators branch of `parse_number_string` (lines 59–66). -/
def sepStageBoth (s : List Char) : List Char :=
  if commaIsDecimal s then (s.filter (fun c => c != '.')).map swapCommaDot
  else s.filter (fun c => c != ',')

/-- Dot-only handling of `parse_number_string` (lines 68–76). -/
def dotStage (s : List Char) : List Char :=
  if s.count '.' > 1 then s.filter (fun c => c != '.')
  else if s.count '.' = 1 then
    (if endsSep3 '.' s then s.filter (fun c => c != '.') else s)
  else s

/-- Comma handling of `parse_number_string` (lines 77–85), run after `dotStage`. -/
def commaStage (s : List Char) : List Char :=
  if s.count ',' > 1 then s.filter (fun c => c != ',')
  else if s.count ',' = 1 then
    (if endsSep3 ',' s then s.filter (fun c => c != ',') else s.map swapCommaDot)
  else s

/-- Separator disambiguation of `parse_number_string` (lines 58–85). -/
def sepStage (s : List Char) : List Char :=
  if s.contains '.' && s.contains ',' then sepStageBoth s
  else commaStage (dotStage s)

/-- `parse_number_string` from `FusionPDF-web.py` lines 48–91. -/
def parse_number_string (input : List Char) : Option ℚ :=
  let s := (pyStrip input).filter keep1
  if s.isEmpty then none
  else pyFloat? ((sepStage s).filter keep2)

/-! ### Monetary-token scanner

`re.finditer(r'(\d{1,3}(?:[.,]\d{3})+(?:[.,]\d{2})?|\d+[.,]\d{2}|\d+)', line)`
from `find_number_candidates_near_label`.  The three alternatives are tried in
order at each position; with these character classes the greedy quantifiers are
deterministic (a shorter digit run is always followed by another digit, never by
a separator), so no backtracking search is needed. -/

/-- `[.,]` separator class. -/
def isSepC (c : Char) : Bool := c = '.' || c = ','

/-- Greedy `(?:[.,]\d{3})*(?:[.,]\d{2})?` continuation: repeatedly take a separator
followed by exactly three digits while at least three follow; finish with one
separator followed by exactly two digits when exactly two follow. -/
def groupsFromAux : ℕ → List Char → List Char
  | 0, _ => []
  | _ + 1, [] => []
  | fuel + 1, s :: rest =>
    if isSepC s then
      let run := rest.takeWhile isDigitC
      if 3 ≤ run.length then (s :: run.take 3) ++ groupsFromAux fuel (rest.drop 3)
      else if run.length = 2 then s :: run
      else []
    else []

/-- Entry point of the grouped-digits continuation. -/
def groupsFrom (s : List Char) : List Char := groupsFromAux s.length s

/-- Can `(?:[.,]\d{3})+` take at least one step here? -/
def firstGroupOK (s : List Char) : Bool :=
  match s with
  | c :: rest => isSepC c && 3 ≤ (rest.takeWhile isDigitC).length
  | [] => false

/-- The token the candidate regex matches at the start of `s`, if any. -/
def matchTokenAt (s : List Char) : Option (List Char) :=
  let run := s.takeWhile isDigitC
  if run.isEmpty then none
  else
    let rest := s.drop run.length
    if run.length ≤ 3 && firstGroupOK rest then some (run ++ groupsFrom rest)
    else
      match rest with
      | c :: r =>
        if isSepC c && 2 ≤ (r.takeWhile isDigitC).length then
          some (run ++ c :: (r.takeWhile isDigitC).take 2)
        else some run
      | [] => some run

/-- All regex matches on a line with their start offsets (`re.finditer` scanning). -/
def lineTokensAux : ℕ → List Char → ℕ → List (List Char × ℕ)
  | 0, _, _ => []
  | _ + 1, [], _ => []
  | fuel + 1, c :: rest, pos =>
    match matchTokenAt (c :: rest) with
    | some tok => (tok, pos) :: lineTokensAux fuel ((c :: rest).drop tok.length) (pos + tok.length)
    | none => lineTokensAux fuel rest (pos + 1)

/-- Tokens of one line, leftmost first, later matches starting after earlier ones. -/
def lineTokens (line : List Char) : List (List Char × ℕ) :=
  lineTokensAux line.length line 0

/-- `target_line[max(0, pos - 4) : pos + len(token) + 4]` (Python slice, clamped). -/
def contextSlice (line : List Char) (pos len : ℕ) : List Char :=
  (line.drop (pos - 4)).take (pos + len + 4 - (pos - 4))

/-- ASCII `str.lower` on one character. -/
def lowerC (c : Char) : Char := c.toLower

/-- Is `pat` a substring of `s` (exact characters)? -/
def isSubstr (pat s : List Char) : Bool :=
  (List.range (s.length + 1)).any (fun i => (s.drop i).take pat.length == pat)

/-- `'%' in context or 'percent' in context.lower()` — the percent-exclusion test. -/
def percentContext (line : List Char) (pos len : ℕ) : Bool :=
  let context := contextSlice line pos len
  context.contains '%' || isSubstr (lc "percent") (context.map lowerC)

/-- Case-insensitive substring test: `re.search(re.escape(label), line, re.IGNORECASE)`. -/
def containsCI (pat s : List Char) : Bool :=
  (List.range (s.length + 1)).any
    (fun i => ((s.drop i).take pat.length).map lowerC == pat.map lowerC)

/-- A `NumericCandidate`: raw token, line index, character offset, stripped line text. -/
structure Cand where
  tok : List Char
  lineIdx : ℕ
  pos : ℕ
  lineText : List Char
  deriving Repr, DecidableEq

/-- Line `n` of the document, `[]` past the end (the source `break`s there). -/
def lineAt (lines : List (List Char)) (n : ℕ) : List Char := (lines.get? n).getD []

/-- Candidates contributed by the line at index `idx`: every regex token whose
4-character context window shows neither `'%'` nor `"percent"`. -/
def candsOfLine (lines : List (List Char)) (idx : ℕ) : List Cand :=
  let target := lineAt lines idx
  ((lineTokens target).filter
      (fun tp => !percentContext target tp.2 tp.1.length)).map
    (fun tp => ⟨tp.1, idx, tp.2, pyStrip target⟩)

/-- `find_number_candidates_near_label` (`FusionPDF-web.py` lines 94–114): for each
line matching the label case-insensitively, collect candidates from it and from the
next `linesDown` lines. -/
def find_number_candidates_near_label (lines : List (List Char)) (label : List Char)
    (linesDown : ℕ) : List Cand :=
  (List.range lines.length).flatMap
    (fun i =>
      if containsCI label (lineAt lines i) then
        (List.range (linesDown + 1)).flatMap (fun j => candsOfLine lines (i + j))
      else [])

/-- Digit count of a token: `len(re.sub(r'\D', '', token))`. -/
def digitsCount (tok : List Char) : ℕ := (tok.filter isDigitC).length

/-- Parsed candidates `(digits_count, value)`, unparseable tokens skipped
(`select_best_candidate` lines 122–128). -/
def parsedCands (toks : List Cand) : List (ℕ × ℚ) :=
  toks.filterMap
    (fun c => (parse_number_string c.tok).map (fun q => (digitsCount c.tok, q)))

/-- First maximum under the lexicographic key (digit count, then numeric value) —
the head of the stable descending sort in the source. -/
def bestOf : Option (ℕ × ℚ) → List (ℕ × ℚ) → Option (ℕ × ℚ)
  | none, [] => none
  | some b, [] => some b
  | none, p :: rest => bestOf (some p) rest
  | some b, p :: rest =>
    if b.1 < p.1 ∨ (b.1 = p.1 ∧ b.2 < p.2) then bestOf (some p) rest
    else bestOf (some b) rest

/-- The selection key order: fewer digits first, value as tie-break (the source
sorts descending by `(digits_count, num)` and takes the head). -/
def lexLE (p r : ℕ × ℚ) : Prop := p.1 < r.1 ∨ (p.1 = r.1 ∧ p.2 ≤ r.2)

/-- `select_best_candidate` (`FusionPDF-web.py` lines 117–133). -/
def select_best_candidate (toks : List Cand) : Option ℚ :=
  (bestOf none (parsedCands toks)).map (fun p => p.2)

/-- Python `str.splitlines` helper (splitting at `'\n'`). -/
def splitNlAux : List Char → List Char → List (List Char)
  | [], acc => [acc.reverse]
  | '\n' :: rest, acc => acc.reverse :: splitNlAux rest []
  | c :: rest, acc => splitNlAux rest (c :: acc)

/-- Python `text.splitlines()`: empty text gives no lines, a trailing newline adds none. -/
def splitlines (s : List Char) : List (List Char) :=
  if s.isEmpty then []
  else
    let ps := splitNlAux s []
    if ps.getLast? = some [] then ps.dropLast else ps

/-- `extract_best_value_for_label` (`FusionPDF-web.py` lines 136–144). -/
def extract_best_value_for_label (text label : List Char) : Option ℚ :=
  let cands := find_number_candidates_near_label (splitlines text) label 3
  if cands.isEmpty then none else select_best_candidate cands

/-! ### Comparator (`compare_values`, `FusionPDF-web.py` lines 150–161) -/

/-- Reason code families of the comparison result dictionary: `"MISSING"`,
`"ABS within tol"`, `"REL within …%"`, `"DIFF …"`. -/
inductive Reason where
  | MISSING
  | ABS_WITHIN_TOLERANCE
  | REL_WITHIN_TOLERANCE
  | DIFFERS
  deriving Repr, DecidableEq

/-- The dictionary `compare_values` returns. -/
structure CompareResult where
  isMatch : Bool
  reason : Reason
  val1 : Option ℚ
  val2 : Option ℚ
  deriving Repr, DecidableEq

/-- `compare_values(val1, val2, rel_tol=0.005, abs_tol=1.0)`. -/
def compare_values (val1 val2 : Option ℚ) (rel_tol abs_tol : ℚ) : CompareResult :=
  match val1, val2 with
  | none, _ => ⟨false, .MISSING, val1, val2⟩
  | _, none => ⟨false, .MISSING, val1, val2⟩
  | some a, some b =>
    if |a - b| ≤ abs_tol then ⟨true, .ABS_WITHIN_TOLERANCE, val1, val2⟩
    else if |a - b| / max |b| 1 ≤ rel_tol then ⟨true, .REL_WITHIN_TOLERANCE, val1, val2⟩
    else ⟨false, .DIFFERS, val1, val2⟩

/-! ### Bulk Comparison page of `FusionPDF-web.py` (lines 279–310)

Documents are modelled by their acquired text (`extract_text_from_pdf` is the
text-acquisition collaborator), keyed by the uploaded file name. -/

/-- The four keyword inputs of the web pages. -/
structure WebKws where
  ik1 : List Char
  ik2 : List Char
  fk1 : List Char
  fk2 : List Char

/-- Lookup in `facture_map = {f.name: f for f in factures}`: a dict comprehension
keeps the last file uploaded under a name. -/
def lookupLast (m : List (List Char × List Char)) (name : List Char) : Option (List Char) :=
  (m.reverse.find? (fun p => p.1 == name)).map (fun p => p.2)

/-- The lists the web bulk loop builds: `success`, `failed`, and the names written
into the merged-output zip. -/
structure BulkOut where
  success : List (List Char)
  failed : List (List Char)
  merged : List (List Char)
  deriving Repr, DecidableEq

/-- The web bulk loop: for each invoice whose name is a key of the facture map,
compare both keyword pairs with default tolerances; merge and record on match,
record as failed otherwise.  Invoices with no facture of the same name get no
entry anywhere. -/
def webBulk (factures : List (List Char × List Char)) (ks : WebKws) :
    List (List Char × List Char) → BulkOut
  | [] => ⟨[], [], []⟩
  | inv :: rest =>
    let out := webBulk factures ks rest
    match lookupLast factures inv.1 with
    | none => out
    | some ftext =>
      let cmp1 := compare_values (extract_best_value_for_label inv.2 ks.ik1)
        (extract_best_value_for_label ftext ks.fk1) (5/1000) 1
      let cmp2 := compare_values (extract_best_value_for_label inv.2 ks.ik2)
        (extract_best_value_for_label ftext ks.fk2) (5/1000) 1
      if cmp1.isMatch && cmp2.isMatch then ⟨inv.1 :: out.success, out.failed, inv.1 :: out.merged⟩
      else ⟨out.success, inv.1 :: out.failed, out.merged⟩

/-! ### `utils/fusion_core.py` -/

/-- `re.sub(r'[\u00A0\u202F]', ' ', text)` on one character. -/
def nbspFix (c : Char) : Char := if c = '\u00A0' || c = '\u202F' then ' ' else c

/-- `re.sub(r'\s+', ' ', text)`: collapse every whitespace run to a single space. -/
def collapseWsAux : Bool → List Char → List Char
  | _, [] => []
  | prev, c :: rest =>
    if isPySpace c then
      (if prev then collapseWsAux true rest else ' ' :: collapseWsAux true rest)
    else c :: collapseWsAux false rest

/-- Whitespace normalization of `extract_value_from_pdf` (lines 14–15). -/
def normSpace (s : List Char) : List Char := collapseWsAux false (s.map nbspFix)

/-- `keyword.lower().strip() in ["vat", "v.a.t", "ppn"]`. -/
def vatKw (kw : List Char) : Bool :=
  let k := pyStrip (kw.map lowerC)
  k == lc "vat" || k == lc "v.a.t" || k == lc "ppn"

/-- The captured group `([\d]+(?:[.,]\d{3})*(?:[.,]\d{2})?)` matched at the start of
`s` (a digit run, then greedy three-digit groups, then an optional two-digit group). -/
def numGroupAt (s : List Char) : Option (List Char) :=
  let run := s.takeWhile isDigitC
  if run.isEmpty then none else some (run ++ groupsFrom (s.drop run.length))

/-- Scan positions left to right and return the first capture (`re.search`). -/
def reSearchAux (m : List Char → Option (List Char)) : ℕ → List Char → Option (List Char)
  | 0, _ => none
  | fuel + 1, s =>
    match m s with
    | some r => some r
    | none =>
      match s with
      | [] => none
      | _ :: rest => reSearchAux m fuel rest

/-- `re.search` with matcher `m`: first match in document order. -/
def reSearch (m : List Char → Option (List Char)) (s : List Char) : Option (List Char) :=
  reSearchAux m (s.length + 1) s

/-- Filler class `[\s\u00A0\u202F\.\-]` between the V, A, T letters. -/
def isVatFill (c : Char) : Bool :=
  isPySpace c || c = '\u00A0' || c = '\u202F' || c = '.' || c = '-'

/-- Separator class `[\s:\-\(\)%]` before the captured digits. -/
def sepClass2 (c : Char) : Bool :=
  isPySpace c || c = ':' || c = '-' || c = '(' || c = ')' || c = '%'

/-- One attempt of the VAT pattern
`(?i)v[\s\u00A0\u202F\.\-]*a[…]*t[…]*[\s:\-\(\)%]*(digits)` at the current position. -/
def matchVatAt (s : List Char) : Option (List Char) :=
  match s with
  | [] => none
  | v :: r0 =>
    if lowerC v = 'v' then
      match r0.dropWhile isVatFill with
      | [] => none
      | a :: r1 =>
        if lowerC a = 'a' then
          match r1.dropWhile isVatFill with
          | [] => none
          | t :: r2 =>
            if lowerC t = 't' then
              numGroupAt ((r2.dropWhile isVatFill).dropWhile sepClass2)
            else none
        else none
    else none

/-- One attempt of the generic keyword pattern
`(?i){re.escape(keyword)}[\s:\-\(\)%]*(digits)` at the current position. -/
def matchKwAt (kw s : List Char) : Option (List Char) :=
  if ((s.take kw.length).map lowerC == kw.map lowerC) then
    numGroupAt ((s.drop kw.length).dropWhile sepClass2)
  else none

/-- One attempt of `(?:Sub\s*Total|Subtotal)[^\d]{0,10}(digits)` (IGNORECASE) at the
current position. -/
def matchSubAt (s : List Char) : Option (List Char) :=
  let kwLen : Option ℕ :=
    if (s.take 3).map lowerC == lc "sub" then
      let ws := (s.drop 3).takeWhile isPySpace
      if ((s.drop (3 + ws.length)).take 5).map lowerC == lc "total" then
        some (3 + ws.length + 5)
      else if (s.take 8).map lowerC == lc "subtotal" then some 8
      else none
    else none
  match kwLen with
  | none => none
  | some n =>
    let rest := s.drop n
    let nonDig := rest.takeWhile (fun c => !isDigitC c)
    if nonDig.length ≤ 10 then numGroupAt (rest.drop nonDig.length) else none

/-- `float(raw.replace('.', '').replace(',', '.'))`, exceptions as `none`. -/
def floatOfRaw (raw : List Char) : Option ℚ :=
  pyFloat? ((raw.filter (fun c => c != '.')).map swapCommaDot)

/-- Round half to even of the exact value `num / den` (`den > 0`): the rounding
Python's `round` applies, on integers so that it evaluates. -/
def roundHalfEven (num : ℤ) (den : ℕ) : ℤ :=
  let f := num.fdiv den
  let rem := num - f * den
  if 2 * rem < (den : ℤ) then f
  else if (den : ℤ) < 2 * rem then f + 1
  else if f % 2 = 0 then f else f + 1

/-- Python `round(x, 2)`: round to two decimals, ties to even. -/
def round2 (q : ℚ) : ℚ := mkRat (roundHalfEven (q.num * 100) q.den) 100

/-- `extract_value_from_pdf` (`utils/fusion_core.py` lines 5–37).  `pathOk` is the
path-existence and `.pdf`-suffix check; `acquired` is the text the PDF reader
produced (`none` when it raised — caught by the `except`, yielding `-1`). -/
def extract_value_from_pdf (pathOk : Bool) (acquired : Option (List Char))
    (keyword : List Char) : ℚ :=
  if !pathOk then -1
  else
    match acquired with
    | none => -1
    | some rawText =>
      let text := normSpace rawText
      if vatKw keyword then
        match reSearch matchVatAt text with
        | some raw =>
          match floatOfRaw raw with
          | some v => v
          | none => -1
        | none =>
          match reSearch matchSubAt text with
          | some rawSub =>
            match floatOfRaw rawSub with
            | some subtotal => round2 (subtotal * mkRat 11 100)
            | none => -1
          | none => -1
      else
        match reSearch (matchKwAt keyword) text with
        | some raw =>
          match floatOfRaw raw with
          | some v => v
          | none => -1
        | none => -1

/-- A document as `compare_pdf_values` sees it through the filesystem. -/
structure FcDoc where
  pathOk : Bool
  acquired : Option (List Char)

/-- The `keywords` dict of `compare_pdf_values`. -/
structure FcKeywords where
  invoice_k1 : List Char
  invoice_k2 : List Char
  facture_k1 : List Char
  facture_k2 : List Char

/-- The dict `compare_pdf_values` returns. -/
structure FcResult where
  invoice_value1 : ℚ
  invoice_value2 : ℚ
  facture_value1 : ℚ
  facture_value2 : ℚ
  isMatch : Bool
  deriving Repr, DecidableEq

/-- `compare_pdf_values` (`utils/fusion_core.py` lines 40–52): exact equality of the
two sentinel-bearing floats per keyword pair. -/
def compare_pdf_values (inv fac : FcDoc) (ks : FcKeywords) : FcResult :=
  let iv1 := extract_value_from_pdf inv.pathOk inv.acquired ks.invoice_k1
  let iv2 := extract_value_from_pdf inv.pathOk inv.acquired ks.invoice_k2
  let fv1 := extract_value_from_pdf fac.pathOk fac.acquired ks.facture_k1
  let fv2 := extract_value_from_pdf fac.pathOk fac.acquired ks.facture_k2
  ⟨iv1, iv2, fv1, fv2, decide (iv1 = fv1 ∧ iv2 = fv2)⟩

/-! ### `pages/2_Bulk_Comparison.py` (lines 125–180)

Files are keyed by `os.path.splitext(os.path.basename(p))[0]`; the maps are
modelled as association lists from that basename key, later entries winning as in
a dict comprehension. -/

/-- One row of the results table, with whether a merged file was written. -/
structure PBRow where
  file : List Char
  cmp : FcResult
  merged : Bool
  deriving DecidableEq

/-- Last-wins dict lookup for documents keyed by basename. -/
def lookupDoc (m : List (List Char × FcDoc)) (name : List Char) : Option FcDoc :=
  (m.reverse.find? (fun p => p.1 == name)).map (fun p => p.2)

/-- The page's bulk loop: iterate the matched basenames
(`set(invoice_map) & set(facture_map)`), compare, and merge when the values match
or `force_merge` is set.  Unmatched basenames produce no row and no merged file. -/
def pathBulk (invoices factures : List (List Char × FcDoc)) (ks : FcKeywords)
    (force : Bool) : List PBRow :=
  let matched := ((invoices.map (fun p => p.1)).dedup).filter
    (fun n => factures.any (fun f => f.1 == n))
  matched.filterMap
    (fun n =>
      match lookupDoc invoices n, lookupDoc factures n with
      | some inv, some fac =>
        let cmp := compare_pdf_values inv fac ks
        some ⟨n, cmp, cmp.isMatch || force⟩
      | _, _ => none)

/-! ### Spec-side reference definitions

These two definitions follow the wording of the specification (§4.1 steps 2–4),
not the code; the claim theorems compare the code's normalizer against them. -/

/-- The two separator characters. -/
def isSepDC (c : Char) : Bool := c = '.' || c = ','

/-- The other separator. -/
def otherSep (c : Char) : Char := if c = ',' then '.' else ','

/-- Spec §4.1 step 2, in the spec's words: of `.` and `,`, the one occurring
rightmost (the last separator occurrence in the token) is the decimal separator;
every occurrence of the other is stripped; the decimal separator is normalized
to `'.'`. -/
def specBothSep (s : List Char) : List Char :=
  match (s.filter isSepDC).getLast? with
  | some d => (s.filter (fun x => x != otherSep d)).map (fun x => if x = d then '.' else x)
  | none => s

/-- Spec §4.1 steps 3–4, in the spec's words: with a single separator kind,
more than one occurrence means thousands separators (strip all); exactly one
occurrence is a decimal point (normalized to `'.'`) unless followed by exactly
three digits at the end of the string, in which case it is stripped. -/
def specSingleSep (sep : Char) (s : List Char) : List Char :=
  if s.count sep > 1 then s.filter (fun x => x != sep)
  else if s.count sep = 1 then
    (if endsSep3 sep s then s.filter (fun x => x != sep)
     else s.map (fun x => if x = sep then '.' else x))
  else s

/-! ### Python `str(float)` for decimal values

`str` of a float that Python prints without an exponent: the shortest decimal
digit string (floats produced by the normalizer are modelled as exact decimal
rationals, for which this is the minimal-length fraction), with at least one
fractional digit, sign first. -/

/-- Smallest scale `e ≤ 6` with `q * 10^e` integral — i.e. with `q.den ∣ 10^e`
(enough for every value used here; values of the normalizer have power-of-ten
denominators). -/
def findE (q : ℚ) : ℕ :=
  if q.den = 1 then 0
  else if q.den ∣ 10 then 1
  else if q.den ∣ 10 ^ 2 then 2
  else if q.den ∣ 10 ^ 3 then 3
  else if q.den ∣ 10 ^ 4 then 4
  else if q.den ∣ 10 ^ 5 then 5
  else if q.den ∣ 10 ^ 6 then 6
  else 0

/-- Python `str(q)` for a decimal-valued float: integer part, `'.'`, then the
fraction digits (one `0` when the value is integral, as Python prints `12.0`).
`n` is `|q| * 10^e` computed on integers so that the kernel can evaluate it. -/
def pyFloatStr (q : ℚ) : List Char :=
  let e := findE q
  let n := q.num.natAbs * (10 ^ e / q.den)
  (if q.num < 0 then ['-'] else []) ++
    natPrint (n / 10 ^ e) ++ '.' :: natPrintFix (max e 1) (n % 10 ^ e)

/-! ## Helper lemmas -/

theorem dropWhile_eq_self_of {p : Char → Bool} :
    ∀ {l : List Char}, (∀ c ∈ l, p c = false) → l.dropWhile p = l
  | [], _ => rfl
  | c :: l, h => by
    have hc := h c (List.mem_cons_self c l)
    simp [List.dropWhile_cons, hc]

theorem pyStrip_eq_self {l : List Char} (h : ∀ c ∈ l, isPySpace c = false) :
    pyStrip l = l := by
  unfold pyStrip
  rw [dropWhile_eq_self_of h,
    dropWhile_eq_self_of (fun c hc => h c (List.mem_reverse.mp hc)),
    List.reverse_reverse]

theorem isPySpace_false_of_digit {c : Char} (h : isDigitC c = true) :
    isPySpace c = false := by
  cases hs : isPySpace c
  · rfl
  · exfalso
    simp only [isPySpace, Bool.or_eq_true, decide_eq_true_eq] at hs
    rcases hs with ((((h1 | h1) | h1) | h1) | h1) | h1 <;> subst h1 <;>
      exact absurd h (by decide)

theorem isPySpace_false_of_keep1 {c : Char} (h : keep1 c = true) :
    isPySpace c = false := by
  simp only [keep1, Bool.or_eq_true, decide_eq_true_eq] at h
  rcases h with ((h | h) | h) | h
  · exact isPySpace_false_of_digit h
  · subst h; decide
  · subst h; decide
  · subst h; decide

theorem clean1_eq_self {l : List Char} (h : ∀ c ∈ l, keep1 c = true) :
    (pyStrip l).filter keep1 = l := by
  rw [pyStrip_eq_self (fun c hc => isPySpace_false_of_keep1 (h c hc))]
  exact List.filter_eq_self.mpr h

theorem contains_eq_true_iff {l : List Char} {a : Char} : l.contains a = true ↔ a ∈ l :=
  List.elem_iff

theorem contains_eq_false_iff {l : List Char} {a : Char} : l.contains a = false ↔ a ∉ l := by
  rw [← Bool.not_eq_true, not_iff_not]
  exact contains_eq_true_iff

theorem count_eq_zero_of_all {l : List Char} {a : Char}
    (h : ∀ c ∈ l, c ≠ a) : l.count a = 0 :=
  List.count_eq_zero.mpr (fun hmem => h a hmem rfl)

/-! ## C2: comparator decision order -/

/-- C2: the comparator applies its rules in order — absent operand first
(MISSING, no match), then absolute tolerance, then relative tolerance with
denominator `max |b| 1`, else DIFFERS; and the claim's three concrete cases at
the default tolerances `rel_tol = 0.005`, `abs_tol = 1.0`. -/
theorem c2_comparator_decision_order :
    (∀ (v : Option ℚ) (reltol abstol : ℚ),
      compare_values none v reltol abstol = ⟨false, .MISSING, none, v⟩) ∧
    (∀ (v : Option ℚ) (reltol abstol : ℚ),
      compare_values v none reltol abstol = ⟨false, .MISSING, v, none⟩) ∧
    (∀ (a b reltol abstol : ℚ), |a - b| ≤ abstol →
      compare_values (some a) (some b) reltol abstol =
        ⟨true, .ABS_WITHIN_TOLERANCE, some a, some b⟩) ∧
    (∀ (a b reltol abstol : ℚ), ¬ |a - b| ≤ abstol → |a - b| / max |b| 1 ≤ reltol →
      compare_values (some a) (some b) reltol abstol =
        ⟨true, .REL_WITHIN_TOLERANCE, some a, some b⟩) ∧
    (∀ (a b reltol abstol : ℚ), ¬ |a - b| ≤ abstol → ¬ |a - b| / max |b| 1 ≤ reltol →
      compare_values (some a) (some b) reltol abstol =
        ⟨false, .DIFFERS, some a, some b⟩) ∧
    (compare_values (some 100) (some (1009/10)) (5/1000) 1).isMatch = true ∧
    (compare_values (some 100) (some (1011/10)) (5/1000) 1).isMatch = false ∧
    compare_values none (some 100) (5/1000) 1 = ⟨false, .MISSING, none, some 100⟩ := by
  have habs : |(100 : ℚ) - 1009/10| ≤ 1 := by
    rw [abs_of_neg (by norm_num)]; norm_num
  have habs2 : ¬ |(100 : ℚ) - 1011/10| ≤ 1 := by
    rw [abs_of_neg (by norm_num)]; norm_num
  have hrel2 : ¬ |(100 : ℚ) - 1011/10| / max |(1011/10 : ℚ)| 1 ≤ 5/1000 := by
    rw [abs_of_neg (by norm_num), abs_of_pos (by norm_num), max_eq_left (by norm_num)]
    norm_num
  refine ⟨fun v reltol abstol => by cases v <;> rfl,
    fun v reltol abstol => by cases v <;> rfl, ?_, ?_, ?_, ?_, ?_, rfl⟩
  · intro a b reltol abstol h
    simp [compare_values, h]
  · intro a b reltol abstol h1 h2
    simp [compare_values, h1, h2]
  · intro a b reltol abstol h1 h2
    simp [compare_values, h1, h2]
  · simp [compare_values, habs]
  · simp [compare_values, habs2, hrel2]

/-- C2 witness: the tolerance branches instantiated at concrete inputs. -/
theorem c2_comparator_decision_order_witness :
    (|(100 : ℚ) - 1009/10| ≤ 1 ∧
      compare_values (some 100) (some (1009/10)) (5/1000) 1 =
        ⟨true, .ABS_WITHIN_TOLERANCE, some 100, some (1009/10)⟩) ∧
    compare_values (some 100) (some (1011/10)) (5/1000) 1 =
      ⟨false, .DIFFERS, some 100, some (1011/10)⟩ :=
  ⟨⟨by rw [abs_of_neg (by norm_num)]; norm_num,
    c2_comparator_decision_order.2.2.1 100 (1009/10) (5/1000) 1
      (by rw [abs_of_neg (by norm_num)]; norm_num)⟩,
    c2_comparator_decision_order.2.2.2.2.1 100 (1011/10) (5/1000) 1
      (by rw [abs_of_neg (by norm_num)]; norm_num)
      (by
        rw [abs_of_neg (by norm_num), abs_of_pos (by norm_num), max_eq_left (by norm_num)]
        norm_num)⟩

/-! ## C9: failed extractions compare as matching in the path-based pipeline -/

/-- C9: when a keyword is extracted from neither document both calls return the
sentinel `-1`, the exact-equality comparison succeeds on that pair, and with all
four extractions failing `compare_pdf_values` reports `match == True`. -/
theorem c9_sentinel_collision_match :
    ∀ (inv fac : FcDoc) (ks : FcKeywords),
      extract_value_from_pdf inv.pathOk inv.acquired ks.invoice_k1 = -1 →
      extract_value_from_pdf fac.pathOk fac.acquired ks.facture_k1 = -1 →
      extract_value_from_pdf inv.pathOk inv.acquired ks.invoice_k2 = -1 →
      extract_value_from_pdf fac.pathOk fac.acquired ks.facture_k2 = -1 →
      (compare_pdf_values inv fac ks).invoice_value1 =
          (compare_pdf_values inv fac ks).facture_value1 ∧
        (compare_pdf_values inv fac ks).isMatch = true := by
  intro inv fac ks h1 h2 h3 h4
  simp [compare_pdf_values, h1, h2, h3, h4]

/-- C9 witness: two unreadable documents (failed path check, no text) compare as
matching. -/
theorem c9_sentinel_collision_match_witness :
    extract_value_from_pdf false none (lc "Sub Total") = -1 ∧
      extract_value_from_pdf false none (lc "VAT") = -1 ∧
      (compare_pdf_values ⟨false, none⟩ ⟨false, none⟩
        ⟨lc "Sub Total", lc "VAT", lc "Harga Jual", lc "Jumlah PPN"⟩).isMatch = true :=
  ⟨rfl, rfl,
    (c9_sentinel_collision_match ⟨false, none⟩ ⟨false, none⟩
      ⟨lc "Sub Total", lc "VAT", lc "Harga Jual", lc "Jumlah PPN"⟩ rfl rfl rfl rfl).2⟩

/-! ## C10: synthesized 11% VAT fallback -/

/-- C10: for a VAT-class keyword, when the VAT pattern finds nothing but a
`Sub Total`/`Subtotal` amount is found, `extract_value_from_pdf` does not return
the absent sentinel but `round(subtotal * 0.11, 2)`. -/
theorem c10_vat_fallback_synthesizes :
    ∀ (t kw raw : List Char) (st : ℚ), vatKw kw = true →
      reSearch matchVatAt (normSpace t) = none →
      reSearch matchSubAt (normSpace t) = some raw →
      floatOfRaw raw = some st →
      extract_value_from_pdf true (some t) kw = round2 (st * mkRat 11 100) := by
  intro t kw raw st h1 h2 h3 h4
  simp [extract_value_from_pdf, h1, h2, h3, h4]

/-- C10 witness: keyword `PPN` on a document containing only
`Sub Total: 2.000.000` yields `220000`, an 11% figure absent from the text. -/
theorem c10_vat_fallback_synthesizes_witness :
    vatKw (lc "PPN") = true ∧
      reSearch matchVatAt (normSpace (lc "Sub Total: 2.000.000")) = none ∧
      reSearch matchSubAt (normSpace (lc "Sub Total: 2.000.000")) = some (lc "2.000.000") ∧
      floatOfRaw (lc "2.000.000") = some 2000000 ∧
      extract_value_from_pdf true (some (lc "Sub Total: 2.000.000")) (lc "PPN") =
        round2 (2000000 * mkRat 11 100) ∧
      round2 ((2000000 : ℚ) * mkRat 11 100) = 220000 :=
  ⟨by decide, by decide, by decide, by decide,
    c10_vat_fallback_synthesizes (lc "Sub Total: 2.000.000") (lc "PPN") (lc "2.000.000")
      2000000 (by decide) (by decide) (by decide) (by decide),
    by
      rw [show (2000000 : ℚ) * mkRat 11 100 = 220000 by rw [Rat.mkRat_eq_div]; norm_num]
      decide⟩

/-! ## C1: sentinel versus explicit absence -/

/-- C1 counterexample: the path-based extraction pipeline represents "not found"
by the numeric sentinel `-1` (here: keyword `Total` absent from the document),
and `-1` is also a legitimately parseable numeric value of the normalizer — the
collision the claim rules out. -/
theorem c1_sentinel_counterexample :
    extract_value_from_pdf true (some (lc "Hello world")) (lc "Total") = -1 ∧
      parse_number_string (lc "-1") = some (-1) := by
  constructor
  · decide
  · decide

/-- C1 amended: the web pipeline's extraction represents absence as the explicit
`None`, distinguishable from every numeric value, but the path-based
`extract_value_from_pdf` yields the numeric sentinel `-1` on failure. -/
theorem c1_sentinel_amended :
    (∀ (kw : List Char) (acq : Option (List Char)),
      extract_value_from_pdf false acq kw = -1) ∧
    (∀ (t l : List Char) (q : ℚ), extract_best_value_for_label t l = some q →
      extract_best_value_for_label t l ≠ none) := by
  constructor
  · intro kw acq; rfl
  · intro t l q h
    rw [h]
    simp

/-- C1 witness: a concrete failing path and a concrete successful web extraction
whose absent marker is distinct from the value. -/
theorem c1_sentinel_amended_witness :
    extract_value_from_pdf false none (lc "Total") = -1 ∧
      extract_best_value_for_label (lc "VAT 5") (lc "VAT") = some 5 ∧
      extract_best_value_for_label (lc "VAT 5") (lc "VAT") ≠ none :=
  ⟨c1_sentinel_amended.1 (lc "Total") none, by decide,
    c1_sentinel_amended.2 (lc "VAT 5") (lc "VAT") 5 (by decide)⟩

/-! ## C3 / C4: separator disambiguation against the spec's wording -/

theorem keep1_of_digit {c : Char} (h : isDigitC c = true) : keep1 c = true := by
  simp [keep1, h]

theorem keep2_of_keep1_not_sep {c : Char} (h : keep1 c = true) (hd : c ≠ '.')
    (hc : c ≠ ',') : keep2 c = true := by
  simp only [keep1, Bool.or_eq_true, decide_eq_true_eq] at h
  rcases h with ((h | h) | h) | h
  · simp [keep2, h]
  · exact absurd h hd
  · exact absurd h hc
  · subst h; decide

theorem map_if_self (d : Char) : ∀ l : List Char, l.map (fun x => if x = d then d else x) = l := by
  intro l
  have : (fun x : Char => if x = d then d else x) = id := by
    funext x
    by_cases h : x = d <;> simp [h]
  rw [this, List.map_id]

theorem head_filter_sep {r : List Char} (hd : '.' ∈ r) (hc : ',' ∈ r) :
    ((r.filter isSepDC).head? = some ',') ↔
      r.findIdx (fun c => c == ',') < r.findIdx (fun c => c == '.') := by
  induction r with
  | nil => cases hd
  | cons x xs ih =>
    by_cases hx : x = ','
    · subst hx
      simp [List.findIdx_cons, List.filter_cons, isSepDC]
    · by_cases hx2 : x = '.'
      · subst hx2
        simp [List.findIdx_cons, List.filter_cons, isSepDC]
      · have hsep : isSepDC x = false := by
          simp [isSepDC, hx, hx2]
        have hd2 : '.' ∈ xs := List.mem_of_ne_of_mem (fun h => hx2 h.symm) hd
        have hc2 : ',' ∈ xs := List.mem_of_ne_of_mem (fun h => hx h.symm) hc
        rw [List.filter_cons_of_neg (by simp [hsep]), List.findIdx_cons, List.findIdx_cons]
        have e1 : (x == ',') = false := by simp [hx]
        have e2 : (x == '.') = false := by simp [hx2]
        rw [e1, e2]
        simpa using ih hd2 hc2

theorem lastSep_eq_comma_iff {c : List Char} (hd : '.' ∈ c) (hc : ',' ∈ c) :
    ((c.filter isSepDC).getLast? = some ',') ↔ commaIsDecimal c = true := by
  rw [List.getLast?_eq_head?_reverse, ← List.filter_reverse]
  simp only [commaIsDecimal, decide_eq_true_eq]
  exact head_filter_sep (List.mem_reverse.mpr hd) (List.mem_reverse.mpr hc)

theorem lastSep_exists {c : List Char} (hd : '.' ∈ c) :
    ∃ d, (c.filter isSepDC).getLast? = some d ∧ isSepDC d = true := by
  have hmem : '.' ∈ c.filter isSepDC := List.mem_filter.mpr ⟨hd, by decide⟩
  cases h : (c.filter isSepDC).getLast? with
  | none =>
    rw [List.getLast?_eq_none_iff] at h
    rw [h] at hmem
    cases hmem
  | some d =>
    refine ⟨d, rfl, ?_⟩
    have : d ∈ c.filter isSepDC := List.mem_of_getLast?_eq_some h
    exact (List.mem_filter.mp this).2

theorem specBothSep_expand {c : List Char} {d : Char}
    (hlast : (c.filter isSepDC).getLast? = some d) :
    specBothSep c =
      (c.filter (fun y => y != otherSep d)).map (fun y => if y = d then '.' else y) := by
  unfold specBothSep
  rw [hlast]

theorem sepStageBoth_eq_spec {c : List Char} (hd : '.' ∈ c) (hc : ',' ∈ c) :
    sepStageBoth c = specBothSep c := by
  obtain ⟨d, hlast, hsep⟩ := lastSep_exists hd
  have hcases : d = '.' ∨ d = ',' := by
    simp only [isSepDC, Bool.or_eq_true, decide_eq_true_eq] at hsep
    exact hsep
  rw [specBothSep_expand hlast]
  rcases hcases with h | h <;> subst h
  · have hfalse : commaIsDecimal c = false := by
      cases hcd : commaIsDecimal c
      · rfl
      · have h2 := (lastSep_eq_comma_iff hd hc).mpr hcd
        rw [hlast] at h2
        exact absurd (Option.some.inj h2) (by decide)
    have lhs : sepStageBoth c = c.filter (fun x => x != ',') := by
      unfold sepStageBoth
      rw [hfalse]
      rfl
    rw [lhs, map_if_self]
    rfl
  · have htrue : commaIsDecimal c = true := (lastSep_eq_comma_iff hd hc).mp hlast
    have lhs : sepStageBoth c = (c.filter (fun x => x != '.')).map swapCommaDot := by
      unfold sepStageBoth
      rw [htrue]
      rfl
    rw [lhs]
    rfl

theorem specBothSep_keep2 {c : List Char} (h1 : ∀ x ∈ c, keep1 x = true)
    (hd : '.' ∈ c) :
    (specBothSep c).filter keep2 = specBothSep c := by
  apply List.filter_eq_self.mpr
  intro x hx
  obtain ⟨d, hlast, hsep⟩ := lastSep_exists hd
  have hcases : d = '.' ∨ d = ',' := by
    simp only [isSepDC, Bool.or_eq_true, decide_eq_true_eq] at hsep
    exact hsep
  rw [specBothSep_expand hlast] at hx
  rcases List.mem_map.mp hx with ⟨y, hy, hxy⟩
  have hk1 : keep1 y = true := h1 y (List.mem_of_mem_filter hy)
  have hother := List.of_mem_filter hy
  subst hxy
  by_cases hyd : y = d
  · rw [if_pos hyd]
    decide
  · rw [if_neg hyd]
    rcases hcases with h | h <;> subst h
    · refine keep2_of_keep1_not_sep hk1 hyd ?_
      simpa [otherSep] using hother
    · refine keep2_of_keep1_not_sep hk1 ?_ hyd
      simpa [otherSep] using hother

/-- C3: whenever both separators survive the cleaning pass, the normalizer's
result is exactly the parse of the spec-side transform `specBothSep` (rightmost
separator is decimal, the other stripped everywhere, decimal normalized to `.`),
and the two concrete identities from the spec hold. -/
theorem c3_rightmost_separator_is_decimal :
    (∀ s : List Char,
      ((pyStrip s).filter keep1).contains '.' = true →
      ((pyStrip s).filter keep1).contains ',' = true →
      parse_number_string s = pyFloat? (specBothSep ((pyStrip s).filter keep1))) ∧
    parse_number_string (lc "1.234,56") = some (123456/100 : ℚ) ∧
    parse_number_string (lc "1,234.56") = some (123456/100 : ℚ) := by
  refine ⟨?_, ?_, ?_⟩
  · intro s hd hc
    have hd' : '.' ∈ (pyStrip s).filter keep1 := contains_eq_true_iff.mp hd
    have hc' : ',' ∈ (pyStrip s).filter keep1 := contains_eq_true_iff.mp hc
    have h1 : ∀ x ∈ (pyStrip s).filter keep1, keep1 x = true :=
      fun x hx => List.of_mem_filter hx
    unfold parse_number_string
    rw [if_neg (by
      simp only [List.isEmpty_iff]
      exact List.ne_nil_of_mem hd')]
    rw [show sepStage ((pyStrip s).filter keep1) =
        sepStageBoth ((pyStrip s).filter keep1) by
      unfold sepStage
      rw [hd, hc]
      rfl]
    rw [sepStageBoth_eq_spec hd' hc', specBothSep_keep2 h1 hd']
  · rw [show parse_number_string (lc "1.234,56") = some (mkRat 123456 100) from by decide]
    rw [Rat.mkRat_eq_div]
    norm_num
  · rw [show parse_number_string (lc "1,234.56") = some (mkRat 123456 100) from by decide]
    rw [Rat.mkRat_eq_div]
    norm_num

/-- C3 witness: the general rule instantiated on `1.234,56`. -/
theorem c3_rightmost_separator_is_decimal_witness :
    ((pyStrip (lc "1.234,56")).filter keep1).contains '.' = true ∧
      ((pyStrip (lc "1.234,56")).filter keep1).contains ',' = true ∧
      parse_number_string (lc "1.234,56") =
        pyFloat? (specBothSep ((pyStrip (lc "1.234,56")).filter keep1)) :=
  ⟨by decide, by decide,
    c3_rightmost_separator_is_decimal.1 (lc "1.234,56") (by decide) (by decide)⟩

theorem dotStage_eq_spec (c : List Char) : dotStage c = specSingleSep '.' c := by
  unfold dotStage specSingleSep
  split_ifs <;> first | rfl | (rw [map_if_self])

theorem commaStage_eq_spec (c : List Char) : commaStage c = specSingleSep ',' c := by
  unfold commaStage specSingleSep
  split_ifs <;> rfl

theorem specSingleSep_keep2_dot {c : List Char} (h1 : ∀ x ∈ c, keep1 x = true)
    (hc : ',' ∉ c) : (specSingleSep '.' c).filter keep2 = specSingleSep '.' c := by
  apply List.filter_eq_self.mpr
  intro x hx
  unfold specSingleSep at hx
  have general : x ∈ c → x ≠ '.' → keep2 x = true := by
    intro hxc hxd
    exact keep2_of_keep1_not_sep (h1 x hxc) hxd (fun he => hc (he ▸ hxc))
  split_ifs at hx with g1 g2 g3
  · exact general (List.mem_of_mem_filter hx) (by simpa using List.of_mem_filter hx)
  · exact general (List.mem_of_mem_filter hx) (by simpa using List.of_mem_filter hx)
  · rw [map_if_self] at hx
    by_cases hxd : x = '.'
    · subst hxd; decide
    · exact general hx hxd
  · have h0 : c.count '.' = 0 := by omega
    exact general hx (fun he => (List.count_eq_zero.mp h0) (he ▸ hx))

theorem specSingleSep_keep2_comma {c : List Char} (h1 : ∀ x ∈ c, keep1 x = true)
    (hd : '.' ∉ c) : (specSingleSep ',' c).filter keep2 = specSingleSep ',' c := by
  apply List.filter_eq_self.mpr
  intro x hx
  unfold specSingleSep at hx
  have general : x ∈ c → x ≠ ',' → keep2 x = true := by
    intro hxc hxcomma
    exact keep2_of_keep1_not_sep (h1 x hxc) (fun he => hd (he ▸ hxc)) hxcomma
  split_ifs at hx with g1 g2 g3
  · exact general (List.mem_of_mem_filter hx) (by simpa using List.of_mem_filter hx)
  · exact general (List.mem_of_mem_filter hx) (by simpa using List.of_mem_filter hx)
  · rcases List.mem_map.mp hx with ⟨y, hy, hxy⟩
    subst hxy
    by_cases hyc : y = ','
    · rw [if_pos hyc]; decide
    · rw [if_neg hyc]
      exact keep2_of_keep1_not_sep (h1 y hy) (fun he => hd (he ▸ hy)) hyc
  · have h0 : c.count ',' = 0 := by omega
    exact general hx (fun he => (List.count_eq_zero.mp h0) (he ▸ hx))

/-- C4: with a single separator kind surviving the cleaning pass, the
normalizer's result is exactly the parse of the spec-side transform
`specSingleSep` (strip all when repeated; one occurrence is decimal unless a
three-digit tail follows it), and the spec's concrete identities hold, including
that `1.234` is `1234` and not `1.234`. -/
theorem c4_single_separator_rule :
    (∀ s : List Char,
      ((pyStrip s).filter keep1).contains '.' = true →
      ((pyStrip s).filter keep1).contains ',' = false →
      parse_number_string s = pyFloat? (specSingleSep '.' ((pyStrip s).filter keep1))) ∧
    (∀ s : List Char,
      ((pyStrip s).filter keep1).contains ',' = true →
      ((pyStrip s).filter keep1).contains '.' = false →
      parse_number_string s = pyFloat? (specSingleSep ',' ((pyStrip s).filter keep1))) ∧
    parse_number_string (lc "1.234.567") = some (1234567 : ℚ) ∧
    parse_number_string (lc "1.234") = some (1234 : ℚ) ∧
    parse_number_string (lc "1.234") ≠ some (1234/1000 : ℚ) := by
  refine ⟨?_, ?_, by decide, by decide, ?_⟩
  · intro s hd hc
    have hd' : '.' ∈ (pyStrip s).filter keep1 := contains_eq_true_iff.mp hd
    have hcnot : ',' ∉ (pyStrip s).filter keep1 := contains_eq_false_iff.mp hc
    have h1 : ∀ x ∈ (pyStrip s).filter keep1, keep1 x = true :=
      fun x hx => List.of_mem_filter hx
    unfold parse_number_string
    rw [if_neg (by
      simp only [List.isEmpty_iff]
      exact List.ne_nil_of_mem hd')]
    rw [show sepStage ((pyStrip s).filter keep1) =
        commaStage (dotStage ((pyStrip s).filter keep1)) by
      unfold sepStage
      rw [hc, Bool.and_false]
      rfl]
    have hsub : ∀ x ∈ dotStage ((pyStrip s).filter keep1), x ∈ (pyStrip s).filter keep1 := by
      intro x hx
      unfold dotStage at hx
      split_ifs at hx <;> first | exact List.mem_of_mem_filter hx | exact hx
    have hc0 : (dotStage ((pyStrip s).filter keep1)).count ',' = 0 :=
      count_eq_zero_of_all (fun x hx hxc => hcnot (hxc ▸ hsub x hx))
    rw [show commaStage (dotStage ((pyStrip s).filter keep1)) =
        dotStage ((pyStrip s).filter keep1) by
      unfold commaStage
      rw [hc0]
      rfl]
    rw [dotStage_eq_spec, specSingleSep_keep2_dot h1 hcnot]
  · intro s hc hd
    have hc' : ',' ∈ (pyStrip s).filter keep1 := contains_eq_true_iff.mp hc
    have hdnot : '.' ∉ (pyStrip s).filter keep1 := contains_eq_false_iff.mp hd
    have h1 : ∀ x ∈ (pyStrip s).filter keep1, keep1 x = true :=
      fun x hx => List.of_mem_filter hx
    unfold parse_number_string
    rw [if_neg (by
      simp only [List.isEmpty_iff]
      exact List.ne_nil_of_mem hc')]
    rw [show sepStage ((pyStrip s).filter keep1) =
        commaStage (dotStage ((pyStrip s).filter keep1)) by
      unfold sepStage
      rw [hd, Bool.false_and]
      rfl]
    have hd0 : ((pyStrip s).filter keep1).count '.' = 0 :=
      count_eq_zero_of_all (fun x hx hxd => hdnot (hxd ▸ hx))
    rw [show dotStage ((pyStrip s).filter keep1) = (pyStrip s).filter keep1 by
      unfold dotStage
      rw [hd0]
      rfl]
    rw [commaStage_eq_spec, specSingleSep_keep2_comma h1 hdnot]
  · rw [show parse_number_string (lc "1.234") = some (mkRat 1234 1) from by decide]
    intro h
    have h2 : (mkRat 1234 1 : ℚ) = 1234/1000 := Option.some.inj h
    rw [Rat.mkRat_eq_div] at h2
    norm_num at h2

/-- C4 witness: both single-separator rules instantiated on concrete tokens. -/
theorem c4_single_separator_rule_witness :
    (((pyStrip (lc "1.234")).filter keep1).contains '.' = true ∧
      ((pyStrip (lc "1.234")).filter keep1).contains ',' = false ∧
      parse_number_string (lc "1.234") =
        pyFloat? (specSingleSep '.' ((pyStrip (lc "1.234")).filter keep1))) ∧
    parse_number_string (lc "0,5") =
      pyFloat? (specSingleSep ',' ((pyStrip (lc "0,5")).filter keep1)) :=
  ⟨⟨by decide, by decide,
    c4_single_separator_rule.1 (lc "1.234") (by decide) (by decide)⟩,
    c4_single_separator_rule.2.1 (lc "0,5") (by decide) (by decide)⟩

/-! ## C5: percent exclusion and best-candidate selection -/

theorem lexLE_refl (p : ℕ × ℚ) : lexLE p p := Or.inr ⟨rfl, le_refl _⟩

theorem lexLE_trans {p r s : ℕ × ℚ} (h1 : lexLE p r) (h2 : lexLE r s) : lexLE p s := by
  rcases h1 with h1 | ⟨h1a, h1b⟩ <;> rcases h2 with h2 | ⟨h2a, h2b⟩
  · exact Or.inl (h1.trans h2)
  · exact Or.inl (h2a ▸ h1)
  · exact Or.inl (h1a ▸ h2)
  · exact Or.inr ⟨h1a.trans h2a, h1b.trans h2b⟩

theorem lexLE_of_not_gt {b p : ℕ × ℚ}
    (h : ¬ (b.1 < p.1 ∨ (b.1 = p.1 ∧ b.2 < p.2))) : lexLE p b := by
  push_neg at h
  rcases lt_or_eq_of_le h.1 with hlt | heq
  · exact Or.inl hlt
  · exact Or.inr ⟨heq, h.2 heq.symm⟩

theorem lexLE_of_gt {b p : ℕ × ℚ}
    (h : b.1 < p.1 ∨ (b.1 = p.1 ∧ b.2 < p.2)) : lexLE b p := by
  rcases h with h | ⟨h1, h2⟩
  · exact Or.inl h
  · exact Or.inr ⟨h1, le_of_lt h2⟩

theorem bestOf_spec :
    ∀ (l : List (ℕ × ℚ)) (acc : Option (ℕ × ℚ)) (res : ℕ × ℚ), bestOf acc l = some res →
      (acc = some res ∨ res ∈ l) ∧ (∀ b, acc = some b → lexLE b res) ∧
        ∀ p ∈ l, lexLE p res := by
  intro l
  induction l with
  | nil =>
    intro acc res h
    cases acc with
    | none => cases h
    | some b =>
      have hb : b = res := Option.some.inj h
      subst hb
      exact ⟨Or.inl rfl, fun b' hb' => by
        cases Option.some.inj hb'
        exact lexLE_refl b, by simp⟩
  | cons p rest ih =>
    intro acc res h
    cases acc with
    | none =>
      have h' : bestOf (some p) rest = some res := h
      obtain ⟨h1, h2, h3⟩ := ih (some p) res h'
      refine ⟨?_, by simp, ?_⟩
      · rcases h1 with h1 | h1
        · exact Or.inr (Option.some.inj h1 ▸ List.mem_cons_self p rest)
        · exact Or.inr (List.mem_cons_of_mem p h1)
      · intro x hx
        rcases List.mem_cons.mp hx with hx | hx
        · exact hx ▸ h2 p rfl
        · exact h3 x hx
    | some b =>
      have hsplit : bestOf (some b) (p :: rest) =
          if b.1 < p.1 ∨ (b.1 = p.1 ∧ b.2 < p.2) then bestOf (some p) rest
          else bestOf (some b) rest := rfl
      by_cases hcond : b.1 < p.1 ∨ (b.1 = p.1 ∧ b.2 < p.2)
      · rw [hsplit, if_pos hcond] at h
        obtain ⟨h1, h2, h3⟩ := ih (some p) res h
        have hpres : lexLE p res := h2 p rfl
        refine ⟨?_, ?_, ?_⟩
        · rcases h1 with h1 | h1
          · exact Or.inr (Option.some.inj h1 ▸ List.mem_cons_self p rest)
          · exact Or.inr (List.mem_cons_of_mem p h1)
        · intro b' hb'
          cases Option.some.inj hb'
          exact lexLE_trans (lexLE_of_gt hcond) hpres
        · intro x hx
          rcases List.mem_cons.mp hx with hx | hx
          · exact hx ▸ hpres
          · exact h3 x hx
      · rw [hsplit, if_neg hcond] at h
        obtain ⟨h1, h2, h3⟩ := ih (some b) res h
        have hbres : lexLE b res := h2 b rfl
        refine ⟨?_, ?_, ?_⟩
        · rcases h1 with h1 | h1
          · exact Or.inl h1
          · exact Or.inr (List.mem_cons_of_mem p h1)
        · intro b' hb'
          cases Option.some.inj hb'
          exact hbres
        · intro x hx
          rcases List.mem_cons.mp hx with hx | hx
          · exact hx ▸ lexLE_trans (lexLE_of_not_gt hcond) hbres
          · exact h3 x hx

/-- C5: every candidate `find_number_candidates_near_label` produces has a
percent-free context window (tokens whose window shows `%` or `percent` are
excluded); the selected value is lexicographically maximal by (digit count,
numeric value) among the parsed candidates; and on the spec's line the selected
value is `1000000.0` (the best-candidate policy's choice), never `11.0`. -/
theorem c5_percent_exclusion_and_selection :
    (∀ (lines : List (List Char)) (label : List Char) (d : ℕ) (cand : Cand),
      cand ∈ find_number_candidates_near_label lines label d →
      percentContext (lineAt lines cand.lineIdx) cand.pos cand.tok.length = false) ∧
    (∀ (toks : List Cand) (q : ℚ), select_best_candidate toks = some q →
      ∃ dc : ℕ, (dc, q) ∈ parsedCands toks ∧ ∀ p ∈ parsedCands toks, lexLE p (dc, q)) ∧
    extract_best_value_for_label (lc "VAT 11% of 1.000.000 is 110.000") (lc "VAT") =
      some 1000000 ∧
    extract_best_value_for_label (lc "VAT 11% of 1.000.000 is 110.000") (lc "VAT") ≠
      some 11 := by
  refine ⟨?_, ?_, by decide, by decide⟩
  · intro lines label d cand hcand
    unfold find_number_candidates_near_label at hcand
    rcases List.mem_flatMap.mp hcand with ⟨i, _, hmem⟩
    by_cases hlabel : containsCI label (lineAt lines i) = true
    · rw [if_pos hlabel] at hmem
      rcases List.mem_flatMap.mp hmem with ⟨j, _, hmem2⟩
      unfold candsOfLine at hmem2
      rcases List.mem_map.mp hmem2 with ⟨tp, htp, heq⟩
      have hfilter := List.of_mem_filter htp
      rw [← heq]
      simpa using hfilter
    · rw [if_neg hlabel] at hmem
      cases hmem
  · intro toks q hsel
    unfold select_best_candidate at hsel
    rcases Option.map_eq_some'.mp hsel with ⟨res, hres, hq⟩
    obtain ⟨h1, _, h3⟩ := bestOf_spec (parsedCands toks) none res hres
    rcases h1 with h1 | h1
    · cases h1
    · exact ⟨res.1, by rwa [show (res.1, q) = res by rw [← hq]], fun p hp => by
        rw [show (res.1, q) = res by rw [← hq]]
        exact h3 p hp⟩

/-- C5 witness: the percent-bearing context is excluded for a concrete candidate
of the spec's example line. -/
theorem c5_percent_exclusion_and_selection_witness :
    (⟨lc "110.000", 0, 24, lc "VAT 11% of 1.000.000 is 110.000"⟩ : Cand) ∈
        find_number_candidates_near_label [lc "VAT 11% of 1.000.000 is 110.000"]
          (lc "VAT") 3 ∧
      percentContext (lineAt [lc "VAT 11% of 1.000.000 is 110.000"] 0) 24
        (lc "110.000").length = false :=
  ⟨by decide,
    c5_percent_exclusion_and_selection.1 [lc "VAT 11% of 1.000.000 is 110.000"] (lc "VAT") 3
      ⟨lc "110.000", 0, 24, lc "VAT 11% of 1.000.000 is 110.000"⟩ (by decide)⟩

/-! ## C6: extraction failure modes -/

theorem flatMap_eq_nil_of {α β : Type} (l : List α) (f : α → List β)
    (h : ∀ x ∈ l, f x = []) : l.flatMap f = [] := by
  induction l with
  | nil => rfl
  | cons x xs ih =>
    rw [List.flatMap_cons, h x (List.mem_cons_self x xs),
      ih (fun y hy => h y (List.mem_cons_of_mem x hy))]
    rfl

theorem lineAt_mem {lines : List (List Char)} {i : ℕ} (h : i < lines.length) :
    lineAt lines i ∈ lines := by
  unfold lineAt
  rw [List.get?_eq_get h]
  exact List.get_mem lines i h

/-- C6 counterexample: an extraction failure in the path-based pipeline yields the
numeric `-1`, not an absent marker, and a pair of failing documents then compares
as a match instead of reaching a MISSING outcome. -/
theorem c6_failure_not_absent_counterexample :
    extract_value_from_pdf true none (lc "Sub Total") = -1 ∧
      (compare_pdf_values ⟨true, none⟩ ⟨true, none⟩
        ⟨lc "Sub Total", lc "VAT", lc "Harga Jual", lc "Jumlah PPN"⟩).isMatch = true :=
  ⟨rfl, rfl⟩

/-- C6 amended: the web extractor degrades its failure modes to the absent `None`
(label absent anywhere in the text, or no parseable token), while the path-based
`extract_value_from_pdf` absorbs its failures into the numeric sentinel `-1`
(path check failure, or text acquisition raising). -/
theorem c6_failures_degrade :
    (∀ (t label : List Char),
      (∀ line ∈ splitlines t, containsCI label line = false) →
      extract_best_value_for_label t label = none) ∧
    (∀ toks : List Cand, (∀ c ∈ toks, parse_number_string c.tok = none) →
      select_best_candidate toks = none) ∧
    (∀ (kw : List Char) (acq : Option (List Char)),
      extract_value_from_pdf false acq kw = -1) ∧
    (∀ kw : List Char, extract_value_from_pdf true none kw = -1) := by
  refine ⟨?_, ?_, fun kw acq => rfl, fun kw => rfl⟩
  · intro t label h
    have hnil : find_number_candidates_near_label (splitlines t) label 3 = [] := by
      apply flatMap_eq_nil_of
      intro i hi
      rw [if_neg (by
        rw [h (lineAt (splitlines t) i) (lineAt_mem (List.mem_range.mp hi))]
        simp)]
    unfold extract_best_value_for_label
    rw [hnil]
    rfl
  · intro toks h
    unfold select_best_candidate
    rw [show parsedCands toks = [] from List.filterMap_eq_nil_iff.mpr (fun c hc => by
      rw [h c hc]
      rfl)]
    rfl

/-- C6 witness: a text in which the label does not occur extracts to `None`. -/
theorem c6_failures_degrade_witness :
    (∀ line ∈ splitlines (lc "no numbers here"), containsCI (lc "Total") line = false) ∧
      extract_best_value_for_label (lc "no numbers here") (lc "Total") = none :=
  ⟨by decide,
    c6_failures_degrade.1 (lc "no numbers here") (lc "Total") (by decide)⟩

/-! ## C7: unpaired invoices in the bulk loops -/

theorem lookupLast_eq_none {m : List (List Char × List Char)} {n : List Char}
    (h : ∀ f ∈ m, f.1 ≠ n) : lookupLast m n = none := by
  unfold lookupLast
  rw [List.find?_eq_none.mpr (fun x hx => by
    simp only [beq_iff_eq]
    exact h x (List.mem_reverse.mp hx))]
  rfl

theorem webBulk_unpaired (facs : List (List Char × List Char)) (ks : WebKws)
    (n : List Char) (h : ∀ f ∈ facs, f.1 ≠ n) :
    ∀ invs : List (List Char × List Char),
      n ∉ (webBulk facs ks invs).success ∧ n ∉ (webBulk facs ks invs).failed ∧
        n ∉ (webBulk facs ks invs).merged := by
  intro invs
  induction invs with
  | nil => exact ⟨List.not_mem_nil n, List.not_mem_nil n, List.not_mem_nil n⟩
  | cons inv rest ih =>
    obtain ⟨i1, i2, i3⟩ := ih
    cases hl : lookupLast facs inv.1 with
    | none =>
      simp only [webBulk, hl]
      exact ⟨i1, i2, i3⟩
    | some ftext =>
      have hne : ¬ n = inv.1 := by
        intro he
        rw [← he, lookupLast_eq_none h] at hl
        cases hl
      simp only [webBulk, hl]
      split
      · refine ⟨?_, i2, ?_⟩
        · simp only [List.mem_cons, not_or]
          exact ⟨hne, i1⟩
        · simp only [List.mem_cons, not_or]
          exact ⟨hne, i3⟩
      · refine ⟨i1, ?_, i3⟩
        simp only [List.mem_cons, not_or]
        exact ⟨hne, i2⟩

theorem pathBulk_unpaired (pinvs pfacs : List (List Char × FcDoc)) (ks : FcKeywords)
    (force : Bool) (n : List Char) (row : PBRow) (h : ∀ f ∈ pfacs, f.1 ≠ n)
    (hrow : row ∈ pathBulk pinvs pfacs ks force) : row.file ≠ n := by
  unfold pathBulk at hrow
  rcases List.mem_filterMap.mp hrow with ⟨m, hm, heq⟩
  have hmpred := List.of_mem_filter hm
  rcases List.mem_filter.mp hm with ⟨_, _⟩
  have hany : ∃ f ∈ pfacs, f.1 = m := by
    rcases List.any_eq_true.mp hmpred with ⟨f, hf, hbeq⟩
    exact ⟨f, hf, by simpa using hbeq⟩
  rcases hany with ⟨f, hf, hfm⟩
  have hmn : m ≠ n := fun he => h f hf (hfm.trans he)
  cases h1 : lookupDoc pinvs m with
  | none => rw [h1] at heq; cases heq
  | some inv =>
    cases h2 : lookupDoc pfacs m with
    | none => rw [h1, h2] at heq; cases heq
    | some fac =>
      rw [h1, h2] at heq
      have : row.file = m := by
        cases Option.some.inj heq
        rfl
      rw [this]
      exact hmn

/-- C7 counterexample: an invoice (`a`) with no facture counterpart is silently
dropped — the web bulk loop reports it neither as success nor as failed and
writes no merged output, and the path-based bulk page produces no result row at
all — so no unpaired manifest exists. -/
theorem c7_unpaired_counterexample :
    webBulk [] ⟨lc "Sub Total", lc "VAT", lc "Harga Jual", lc "Jumlah PPN"⟩
        [(lc "a", lc "some invoice text")] = ⟨[], [], []⟩ ∧
      pathBulk [(lc "a", ⟨false, none⟩)] []
        ⟨lc "Sub Total", lc "VAT", lc "Harga Jual", lc "Jumlah PPN"⟩ false = [] :=
  ⟨rfl, rfl⟩

/-- C7 amended: an uploaded invoice whose name has no facture counterpart is
silently skipped by both bulk loops — it appears in no success, failed or merged
list and in no result row — rather than being reported in an unpaired manifest;
pairing is by uploaded file name (web page) and by basename (path-based page). -/
theorem c7_unpaired_silently_dropped :
    (∀ (facs : List (List Char × List Char)) (ks : WebKws) (n : List Char),
      (∀ f ∈ facs, f.1 ≠ n) →
      ∀ invs, n ∉ (webBulk facs ks invs).success ∧ n ∉ (webBulk facs ks invs).failed ∧
        n ∉ (webBulk facs ks invs).merged) ∧
    (∀ (pinvs pfacs : List (List Char × FcDoc)) (ks : FcKeywords) (force : Bool)
        (n : List Char) (row : PBRow),
      (∀ f ∈ pfacs, f.1 ≠ n) → row ∈ pathBulk pinvs pfacs ks force → row.file ≠ n) :=
  ⟨fun facs ks n h invs => webBulk_unpaired facs ks n h invs,
    fun pinvs pfacs ks force n row h hrow => pathBulk_unpaired pinvs pfacs ks force n row h hrow⟩

/-- C7 witness: the invoice named `a` with an empty facture upload set is in no
output list of the web bulk loop. -/
theorem c7_unpaired_silently_dropped_witness :
    lc "a" ∉ (webBulk [] ⟨lc "Sub Total", lc "VAT", lc "Harga Jual", lc "Jumlah PPN"⟩
        [(lc "a", lc "some invoice text")]).success ∧
      lc "a" ∉ (webBulk [] ⟨lc "Sub Total", lc "VAT", lc "Harga Jual", lc "Jumlah PPN"⟩
        [(lc "a", lc "some invoice text")]).failed ∧
      lc "a" ∉ (webBulk [] ⟨lc "Sub Total", lc "VAT", lc "Harga Jual", lc "Jumlah PPN"⟩
        [(lc "a", lc "some invoice text")]).merged :=
  c7_unpaired_silently_dropped.1 [] ⟨lc "Sub Total", lc "VAT", lc "Harga Jual", lc "Jumlah PPN"⟩
    (lc "a") (fun f hf => absurd hf (List.not_mem_nil f)) [(lc "a", lc "some invoice text")]

/-! ## C8: printing and reparsing canonical decimal representations -/

theorem digitVal_digitChar {d : ℕ} (h : d < 10) : digitVal (digitChar d) = d := by
  interval_cases d <;> decide

theorem isDigitC_digitChar {d : ℕ} (h : d < 10) : isDigitC (digitChar d) = true := by
  interval_cases d <;> decide

theorem parseNatAux_append (a : ℕ) (l : List Char) (c : Char) :
    parseNatAux a (l ++ [c]) = 10 * parseNatAux a l + digitVal c := by
  unfold parseNatAux
  rw [List.foldl_append]
  rfl

theorem natPrintAux_spec :
    ∀ (fuel n a : ℕ), n < 10 ^ fuel →
      parseNatAux a (natPrintAux fuel n) = a * 10 ^ (natPrintAux fuel n).length + n := by
  intro fuel
  induction fuel with
  | zero =>
    intro n a h
    rw [pow_zero] at h
    have hn : n = 0 := by omega
    subst hn
    simp [natPrintAux, parseNatAux]
  | succ f ih =>
    intro n a h
    by_cases h10 : n < 10
    · rw [show natPrintAux (f + 1) n = [digitChar n] from by
        conv_lhs => rw [natPrintAux]
        rw [if_pos h10]]
      show parseNatAux a [digitChar n] = a * 10 ^ ([digitChar n].length) + n
      unfold parseNatAux
      simp only [List.foldl_cons, List.foldl_nil, List.length_singleton, pow_one]
      rw [digitVal_digitChar h10]
      omega
    · have hdiv : n / 10 < 10 ^ f := by
        rw [Nat.div_lt_iff_lt_mul (by norm_num)]
        calc n < 10 ^ (f + 1) := h
          _ = 10 ^ f * 10 := by rw [pow_succ]
      rw [show natPrintAux (f + 1) n = natPrintAux f (n / 10) ++ [digitChar (n % 10)] from by
        conv_lhs => rw [natPrintAux]
        rw [if_neg h10]]
      rw [parseNatAux_append, ih (n / 10) a hdiv,
        digitVal_digitChar (Nat.mod_lt n (by norm_num)), List.length_append]
      simp only [List.length_singleton]
      rw [pow_succ, ← mul_assoc]
      generalize a * 10 ^ (natPrintAux f (n / 10)).length = t
      omega

theorem natPrintAux_digits :
    ∀ (fuel n : ℕ) (c : Char), c ∈ natPrintAux fuel n → isDigitC c = true := by
  intro fuel
  induction fuel with
  | zero =>
    intro n c hc
    cases hc
  | succ f ih =>
    intro n c hc
    by_cases h10 : n < 10
    · rw [show natPrintAux (f + 1) n = [digitChar n] from by
        conv_lhs => rw [natPrintAux]
        rw [if_pos h10]] at hc
      rw [List.mem_singleton.mp hc]
      exact isDigitC_digitChar h10
    · rw [show natPrintAux (f + 1) n = natPrintAux f (n / 10) ++ [digitChar (n % 10)] from by
        conv_lhs => rw [natPrintAux]
        rw [if_neg h10]] at hc
      rcases List.mem_append.mp hc with hc | hc
      · exact ih (n / 10) c hc
      · rw [List.mem_singleton.mp hc]
        exact isDigitC_digitChar (Nat.mod_lt n (by norm_num))

theorem natPrint_parse (n : ℕ) : parseNat (natPrint n) = n := by
  have hb : n < 10 ^ (n + 1) :=
    lt_of_lt_of_le (Nat.lt_pow_self (by norm_num) n)
      (Nat.pow_le_pow_right (by norm_num) (Nat.le_succ n))
  have h := natPrintAux_spec (n + 1) n 0 hb
  simpa [parseNat, natPrint] using h

theorem natPrint_digits {n : ℕ} {c : Char} (h : c ∈ natPrint n) : isDigitC c = true :=
  natPrintAux_digits (n + 1) n c h

theorem natPrint_ne_nil (n : ℕ) : natPrint n ≠ [] := by
  unfold natPrint natPrintAux
  split_ifs <;> simp

theorem digit_ne_dash {c : Char} (h : isDigitC c = true) : c ≠ '-' := by
  intro he
  subst he
  exact absurd h (by decide)

theorem digit_ne_dot {c : Char} (h : isDigitC c = true) : c ≠ '.' := by
  intro he
  subst he
  exact absurd h (by decide)

theorem digit_ne_comma {c : Char} (h : isDigitC c = true) : c ≠ ',' := by
  intro he
  subst he
  exact absurd h (by decide)

theorem takeWhile_append_stop {p : Char → Bool} :
    ∀ (I : List Char) (c : Char) (F : List Char), (∀ x ∈ I, p x = true) → p c = false →
      (I ++ c :: F).takeWhile p = I := by
  intro I
  induction I with
  | nil =>
    intro c F _ hc
    simp [List.takeWhile_cons, hc]
  | cons x xs ih =>
    intro c F h hc
    have hx : p x = true := h x (List.mem_cons_self x xs)
    have hrest := ih c F (fun y hy => h y (List.mem_cons_of_mem x hy)) hc
    simp [List.takeWhile_cons, hx, hrest]

theorem splitDot_canonical {I F : List Char} (hI : ∀ x ∈ I, isDigitC x = true)
    (hF : '.' ∉ F) : splitDot (I ++ '.' :: F) = some (I, F) := by
  have ht : (I ++ '.' :: F).takeWhile (fun c => c != '.') = I :=
    takeWhile_append_stop I '.' F (fun x hx => by simp [digit_ne_dot (hI x hx)]) (by decide)
  simp only [splitDot, ht, List.drop_left]
  rw [if_neg (by
    rw [contains_eq_false_iff.mpr hF]
    simp)]

theorem pyFloat?_canonical {I F : List Char} (hI : I ≠ []) (hId : ∀ x ∈ I, isDigitC x = true)
    (hFd : ∀ x ∈ F, isDigitC x = true) (neg : Bool) :
    pyFloat? ((if neg then ['-'] else []) ++ I ++ '.' :: F) =
      some (if neg then
          -(mkRat (parseNat I * 10 ^ F.length + parseNat F : ℕ) (10 ^ F.length))
        else (mkRat (parseNat I * 10 ^ F.length + parseNat F : ℕ) (10 ^ F.length))) := by
  obtain ⟨c, I', rfl⟩ := List.exists_cons_of_ne_nil hI
  have hc : isDigitC c = true := hId c (List.mem_cons_self c I')
  have hFdot : '.' ∉ F := fun hmem => absurd (hFd '.' hmem) (by decide)
  have hsplit := splitDot_canonical hId hFdot
  have hallI : (c :: I').all isDigitC = true := List.all_eq_true.mpr hId
  have hallF : F.all isDigitC = true := List.all_eq_true.mpr hFd
  have hsplit' : splitDot (c :: (I' ++ '.' :: F)) = some (c :: I', F) := by
    rw [← List.cons_append]
    exact hsplit
  cases neg
  · show pyFloat? ([] ++ (c :: I') ++ '.' :: F) = _
    simp only [List.nil_append, List.cons_append, pyFloat?]
    rw [if_neg (digit_ne_dash hc)]
    simp [hsplit', hId, hFd, hallI, hallF]
  · show pyFloat? (['-'] ++ (c :: I') ++ '.' :: F) = _
    simp only [List.cons_append, List.nil_append, pyFloat?]
    simp [hsplit', hId, hFd, hallI, hallF]

theorem parseNat_singleton (c : Char) : parseNat [c] = digitVal c := by
  simp [parseNat, parseNatAux]

theorem parseNat_pair (a b : Char) : parseNat [a, b] = 10 * digitVal a + digitVal b := by
  simp [parseNat, parseNatAux]

theorem endsSep3_rev1 {s : List Char} {a : Char} {rest : List Char}
    (h : s.reverse = a :: '.' :: rest) : endsSep3 '.' s = false := by
  unfold endsSep3
  rw [h]
  cases rest with
  | nil => rfl
  | cons d t =>
    cases t with
    | nil => rfl
    | cons e t2 => simp [show isDigitC '.' = false from by decide]

theorem endsSep3_rev2 {s : List Char} {a b : Char} {rest : List Char}
    (h : s.reverse = b :: a :: '.' :: rest) : endsSep3 '.' s = false := by
  unfold endsSep3
  rw [h]
  cases rest with
  | nil => rfl
  | cons e t2 => simp [show isDigitC '.' = false from by decide]

theorem parse_canonical {I F : List Char} (hI : I ≠ []) (hId : ∀ x ∈ I, isDigitC x = true)
    (hFd : ∀ x ∈ F, isDigitC x = true) (hFlen : F.length = 1 ∨ F.length = 2) (neg : Bool) :
    parse_number_string ((if neg then ['-'] else []) ++ I ++ '.' :: F) =
      some (if neg then
          -(mkRat (parseNat I * 10 ^ F.length + parseNat F : ℕ) (10 ^ F.length))
        else (mkRat (parseNat I * 10 ^ F.length + parseNat F : ℕ) (10 ^ F.length))) := by
  set S := (if neg then ['-'] else []) ++ I ++ '.' :: F with hSdef
  have hmem_types : ∀ x ∈ S, isDigitC x = true ∨ x = '.' ∨ x = '-' := by
    intro x hx
    rw [hSdef] at hx
    rcases List.mem_append.mp hx with hx | hx
    · rcases List.mem_append.mp hx with hx | hx
      · cases neg
        · cases hx
        · right; right; exact List.mem_singleton.mp hx
      · left; exact hId x hx
    · rcases List.mem_cons.mp hx with hx | hx
      · right; left; exact hx
      · left; exact hFd x hx
  have hk1 : ∀ x ∈ S, keep1 x = true := by
    intro x hx
    rcases hmem_types x hx with h | h | h
    · exact keep1_of_digit h
    · subst h; decide
    · subst h; decide
  have hnc : ',' ∉ S := by
    intro hmem
    rcases hmem_types ',' hmem with h | h | h
    · exact absurd h (by decide)
    · exact absurd h (by decide)
    · exact absurd h (by decide)
  have hdot : '.' ∈ S := by
    rw [hSdef]
    exact List.mem_append.mpr (Or.inr (List.mem_cons_self _ _))
  have hcountI : I.count '.' = 0 := count_eq_zero_of_all (fun x hx => digit_ne_dot (hId x hx))
  have hcountF : F.count '.' = 0 := count_eq_zero_of_all (fun x hx => digit_ne_dot (hFd x hx))
  have hcount : S.count '.' = 1 := by
    rw [hSdef, List.count_append, List.count_append, List.count_cons]
    cases neg
    · simp [hcountI, hcountF]
    · simp [hcountI, hcountF]
  have hends : endsSep3 '.' S = false := by
    rcases hFlen with h1 | h2
    · obtain ⟨a, ha⟩ := List.length_eq_one.mp h1
      have hrev : S.reverse = a :: '.' :: (I.reverse ++ (if neg then ['-'] else []).reverse) := by
        rw [hSdef, ha]
        simp [List.reverse_append]
      exact endsSep3_rev1 hrev
    · obtain ⟨a, b, hab⟩ := List.length_eq_two.mp h2
      have hrev : S.reverse =
          b :: a :: '.' :: (I.reverse ++ (if neg then ['-'] else []).reverse) := by
        rw [hSdef, hab]
        simp [List.reverse_append]
      exact endsSep3_rev2 hrev
  have hk2 : ∀ x ∈ S, keep2 x = true := by
    intro x hx
    rcases hmem_types x hx with h | h | h
    · simp [keep2, h]
    · subst h; decide
    · subst h; decide
  unfold parse_number_string
  rw [clean1_eq_self hk1]
  rw [if_neg (by
    simp only [List.isEmpty_iff]
    exact List.ne_nil_of_mem hdot)]
  rw [show sepStage S = commaStage (dotStage S) from by
    unfold sepStage
    rw [contains_eq_false_iff.mpr hnc, Bool.and_false]
    rfl]
  rw [show dotStage S = S from by
    unfold dotStage
    rw [hcount, hends]
    rfl]
  rw [show commaStage S = S from by
    unfold commaStage
    rw [count_eq_zero_of_all (fun x hx hxc => hnc (by rw [← hxc]; exact hx))]
    rfl]
  rw [List.filter_eq_self.mpr hk2, hSdef]
  exact pyFloat?_canonical hI hId hFd neg

theorem mkRat_natAbs_mul {q : ℚ} {k P : ℕ} (hk : q.den * k = P) (hP : P ≠ 0) :
    (mkRat (q.num.natAbs * k : ℕ) P : ℚ) = |(q.num : ℚ)| / (q.den : ℚ) := by
  have hkne : (k : ℚ) ≠ 0 := by
    intro h0
    apply hP
    rw [← hk]
    have hz : k = 0 := by exact_mod_cast h0
    rw [hz, mul_zero]
  rw [Rat.mkRat_eq_div, ← hk]
  push_cast
  rw [mul_div_mul_right _ _ hkne]

theorem mkRat_val_pos {q : ℚ} {k P : ℕ} (hk : q.den * k = P) (hP : P ≠ 0)
    (hpos : ¬ q.num < 0) : (mkRat (q.num.natAbs * k : ℕ) P : ℚ) = q := by
  rw [mkRat_natAbs_mul hk hP,
    abs_of_nonneg (by exact_mod_cast le_of_not_lt hpos : (0 : ℚ) ≤ (q.num : ℚ))]
  exact Rat.num_div_den q

theorem mkRat_val_neg {q : ℚ} {k P : ℕ} (hk : q.den * k = P) (hP : P ≠ 0)
    (hneg : q.num < 0) : -(mkRat (q.num.natAbs * k : ℕ) P : ℚ) = q := by
  rw [mkRat_natAbs_mul hk hP,
    abs_of_nonpos (by exact_mod_cast le_of_lt hneg : (q.num : ℚ) ≤ 0),
    neg_div, neg_neg]
  exact Rat.num_div_den q

theorem parseNat_natPrintFix_one (x : ℕ) : parseNat (natPrintFix 1 x) = x % 10 := by
  show parseNat [digitChar (x % 10)] = x % 10
  rw [parseNat_singleton, digitVal_digitChar (Nat.mod_lt x (by norm_num))]

theorem digits_natPrintFix_one (x : ℕ) : ∀ c ∈ natPrintFix 1 x, isDigitC c = true := by
  intro c hc
  have he : natPrintFix 1 x = [digitChar (x % 10)] := rfl
  rw [he] at hc
  rw [List.mem_singleton.mp hc]
  exact isDigitC_digitChar (Nat.mod_lt x (by norm_num))

theorem parseNat_natPrintFix_two (x : ℕ) :
    parseNat (natPrintFix 2 x) = 10 * (x / 10 % 10) + x % 10 := by
  show parseNat [digitChar (x / 10 % 10), digitChar (x % 10)] = _
  rw [parseNat_pair, digitVal_digitChar (Nat.mod_lt _ (by norm_num)),
    digitVal_digitChar (Nat.mod_lt _ (by norm_num))]

theorem digits_natPrintFix_two (x : ℕ) : ∀ c ∈ natPrintFix 2 x, isDigitC c = true := by
  intro c hc
  have he : natPrintFix 2 x = [digitChar (x / 10 % 10), digitChar (x % 10)] := rfl
  rw [he] at hc
  rcases List.mem_cons.mp hc with hc | hc
  · rw [hc]
    exact isDigitC_digitChar (Nat.mod_lt _ (by norm_num))
  · rw [List.mem_singleton.mp hc]
    exact isDigitC_digitChar (Nat.mod_lt _ (by norm_num))

theorem parse_decimal_string {q : ℚ} {I F : List Char} {k P : ℕ}
    (hI : I ≠ []) (hId : ∀ x ∈ I, isDigitC x = true) (hFd : ∀ x ∈ F, isDigitC x = true)
    (hFlen : F.length = 1 ∨ F.length = 2)
    (hval : parseNat I * 10 ^ F.length + parseNat F = q.num.natAbs * k)
    (hP : 10 ^ F.length = P) (hk : q.den * k = P) (hPne : P ≠ 0) :
    parse_number_string ((if q.num < 0 then ['-'] else []) ++ I ++ '.' :: F) = some q := by
  by_cases hneg : q.num < 0
  · rw [if_pos hneg]
    have hpc := parse_canonical hI hId hFd hFlen true
    rw [show ((if (true : Bool) then ['-'] else ([] : List Char))) = ['-'] from rfl] at hpc
    rw [hpc]
    show some (-(mkRat (parseNat I * 10 ^ F.length + parseNat F : ℕ) (10 ^ F.length))) = some q
    rw [hval, hP]
    exact congrArg some (mkRat_val_neg hk hPne hneg)
  · rw [if_neg hneg]
    have hpc := parse_canonical hI hId hFd hFlen false
    rw [show ((if (false : Bool) then ['-'] else ([] : List Char))) = [] from rfl] at hpc
    rw [hpc]
    show some ((mkRat (parseNat I * 10 ^ F.length + parseNat F : ℕ) (10 ^ F.length))) = some q
    rw [hval, hP]
    exact congrArg some (mkRat_val_pos hk hPne hneg)

theorem length_natPrintFix_one (x : ℕ) : (natPrintFix 1 x).length = 1 := rfl

theorem length_natPrintFix_two (x : ℕ) : (natPrintFix 2 x).length = 2 := rfl

theorem parse_pyFloatStr {q : ℚ} (hdvd : q.den ∣ 100) :
    parse_number_string (pyFloatStr q) = some q := by
  by_cases h0 : q.den = 1
  · have hfe : findE q = 0 := by simp [findE, h0]
    show parse_number_string ((if q.num < 0 then ['-'] else []) ++
        natPrint (q.num.natAbs * (10 ^ findE q / q.den) / 10 ^ findE q) ++ '.' ::
        natPrintFix (max (findE q) 1) (q.num.natAbs * (10 ^ findE q / q.den) % 10 ^ findE q)) =
      some q
    rw [hfe, h0]
    simp only [pow_zero, Nat.div_one, mul_one, Nat.mod_one]
    rw [show (max 0 1 : ℕ) = 1 from rfl]
    have hk0 : q.den * 10 = 10 := by rw [h0, one_mul]
    refine parse_decimal_string (natPrint_ne_nil _) (fun x hx => natPrint_digits hx)
      (digits_natPrintFix_one 0) (Or.inl rfl) ?_ ?_ hk0 (by norm_num)
    · rw [natPrint_parse, parseNat_natPrintFix_one, length_natPrintFix_one, pow_one]
      omega
    · rw [length_natPrintFix_one, pow_one]
  · by_cases h1 : q.den ∣ 10
    · have hfe : findE q = 1 := by simp [findE, h0, h1]
      have hk1 : q.den * (10 / q.den) = 10 := Nat.mul_div_cancel' h1
      show parse_number_string ((if q.num < 0 then ['-'] else []) ++
          natPrint (q.num.natAbs * (10 ^ findE q / q.den) / 10 ^ findE q) ++ '.' ::
          natPrintFix (max (findE q) 1) (q.num.natAbs * (10 ^ findE q / q.den) % 10 ^ findE q)) =
        some q
      rw [hfe]
      simp only [pow_one]
      rw [show (max 1 1 : ℕ) = 1 from rfl]
      refine parse_decimal_string (natPrint_ne_nil _) (fun x hx => natPrint_digits hx)
        (digits_natPrintFix_one _) (Or.inl rfl) ?_ ?_ hk1 (by norm_num)
      · rw [natPrint_parse, parseNat_natPrintFix_one, length_natPrintFix_one, pow_one]
        omega
      · rw [length_natPrintFix_one, pow_one]
    · have hfe : findE q = 2 := by simp [findE, h0, h1, hdvd]
      have hk2 : q.den * (100 / q.den) = 100 := Nat.mul_div_cancel' hdvd
      show parse_number_string ((if q.num < 0 then ['-'] else []) ++
          natPrint (q.num.natAbs * (10 ^ findE q / q.den) / 10 ^ findE q) ++ '.' ::
          natPrintFix (max (findE q) 1) (q.num.natAbs * (10 ^ findE q / q.den) % 10 ^ findE q)) =
        some q
      rw [hfe]
      rw [show (max 2 1 : ℕ) = 2 from rfl, show (10 : ℕ) ^ 2 = 100 from by norm_num]
      refine parse_decimal_string (natPrint_ne_nil _) (fun x hx => natPrint_digits hx)
        (digits_natPrintFix_two _) (Or.inr rfl) ?_ ?_ hk2 (by norm_num)
      · rw [natPrint_parse, parseNat_natPrintFix_two, length_natPrintFix_two,
          show (10 : ℕ) ^ 2 = 100 from by norm_num]
        omega
      · rw [length_natPrintFix_two]
        norm_num

/-- C8 counterexample: the claim fails at the well-formed token `1.234,567`: it
normalizes to `1234.567`, whose canonical decimal string `1234.567` reparses —
through the three-digit-tail thousands rule — as `1234567`, not `1234.567`. -/
theorem c8_idempotence_counterexample :
    parse_number_string (lc "1.234,567") = some (mkRat 1234567 1000) ∧
      pyFloatStr (mkRat 1234567 1000) = lc "1234.567" ∧
      parse_number_string (pyFloatStr (mkRat 1234567 1000)) = some (mkRat 1234567 1) ∧
      (mkRat 1234567 1 : ℚ) ≠ mkRat 1234567 1000 :=
  ⟨by decide, by decide, by decide, by decide⟩

/-- C8 amended: normalization is idempotent through the canonical decimal
representation for well-formed tokens whose value carries at most two decimal
places (denominator dividing 100, the monetary case, staying below the float
exponent-notation threshold); the three-decimal case is the counterexample. -/
theorem c8_idempotence_two_decimals :
    ∀ (t : List Char) (q : ℚ), parse_number_string t = some q → q.den ∣ 100 →
      q.num.natAbs < 10 ^ 16 →
      parse_number_string (pyFloatStr q) = parse_number_string t := by
  intro t q ht hdvd _
  rw [ht, parse_pyFloatStr hdvd]

/-- C8 witness: idempotence at the token `1,234.56`. -/
theorem c8_idempotence_two_decimals_witness :
    parse_number_string (lc "1,234.56") = some (mkRat 123456 100) ∧
      (mkRat 123456 100 : ℚ).den ∣ 100 ∧ (mkRat 123456 100 : ℚ).num.natAbs < 10 ^ 16 ∧
      parse_number_string (pyFloatStr (mkRat 123456 100)) =
        parse_number_string (lc "1,234.56") :=
  ⟨by decide, by decide, by decide,
    c8_idempotence_two_decimals (lc "1,234.56") (mkRat 123456 100)
      (by decide) (by decide) (by decide)⟩
